import Mathlib

/-!
Verification development for the Gaussian-process model core of the `ichor`
repository: the persisted-model parser and numerics of
`ichor/models/model.py`, the quadratic mean of `ichor/models/mean/quadratic.py`,
and the random point selector of `ichor/cli/make_set_methods/random.py`.

Numeric values (Python floats / numpy float64) are embedded as exact
rationals `ℚ`; numpy arrays of dimension one or two are embedded as
`List ℚ` / `List (List ℚ)` together with an `NpArr` sum type that
records the dimensionality, so that numpy's broadcasting rules can be
modelled faithfully where the source relies on them.
-/

namespace Ichor

/- Batteries marks the `Rat` field operations `@[irreducible]`; restore
the default transparency locally so that concrete rational computations
can be settled by `decide`. -/
attribute [local semireducible] Rat.add Rat.mul Rat.sub Rat.inv

/-- Dot product of two rational vectors; mirrors `np.matmul` on two
one-dimensional arrays of equal length. -/
def dotq (u v : List ℚ) : ℚ := (List.zipWith (· * ·) u v).sum

/-- The product `matVec A v` mirrors `np.matmul(A, v)` for a 2-D `A` and 1-D `v`:
each row of `A` is dotted with `v`. -/
def matVec (A : List (List ℚ)) (v : List ℚ) : List ℚ :=
  A.map (fun row => dotq row v)

/-- The function `transposeQ` mirrors numpy `.T` on a rectangular 2-D array:
column `j` of `A` becomes row `j` of the result.  The number of columns
is read off the first row, as a rectangular numpy array determines it. -/
def transposeQ (A : List (List ℚ)) : List (List ℚ) :=
  (List.range (A.headD []).length).map (fun j => A.map (fun row => row.getD j 0))

/-- The product `vecMat u A` mirrors `np.matmul(u, A)` for a 1-D `u` and 2-D `A`:
entry `j` is the dot product of `u` with column `j` of `A`. -/
def vecMat (u : List ℚ) (A : List (List ℚ)) : List ℚ :=
  matVec (transposeQ A) u

/-- The product `matmulQ A B` mirrors `np.matmul` on two 2-D arrays: entry `(i, j)`
is the dot product of row `i` of `A` with column `j` of `B`. -/
def matmulQ (A B : List (List ℚ)) : List (List ℚ) :=
  A.map (fun row => (List.range (B.headD []).length).map
    (fun j => dotq row (B.map (fun brow => brow.getD j 0))))

/-- Embedding of `np.eye n`: the `n × n` identity matrix. -/
def eyeQ (n : ℕ) : List (List ℚ) :=
  (List.range n).map (fun i => (List.range n).map (fun j => if i = j then 1 else 0))

/-- Elementwise sum of two matrices of the same shape (numpy `+` without
broadcasting, which is all `Model.R` needs). -/
def addMat (A B : List (List ℚ)) : List (List ℚ) :=
  List.zipWith (List.zipWith (· + ·)) A B

/-- Scalar multiple of a matrix. -/
def smulMat (c : ℚ) (A : List (List ℚ)) : List (List ℚ) :=
  A.map (fun row => row.map (fun a => c * a))

/-- Embedding of `np.ones((n, 1))` flattened: the all-ones vector of length `n`. -/
def onesQ (n : ℕ) : List ℚ := List.replicate n 1

/-- Map with the element index, implemented with `zipWith` so that its
length behaviour is transparent. -/
def mapIdxQ (f : ℕ → α → β) (l : List α) : List β :=
  List.zipWith f (List.range l.length) l

/-- Numpy arrays of dimension one or two. -/
inductive NpArr where
  | one : List ℚ → NpArr
  | two : List (List ℚ) → NpArr
deriving DecidableEq, Repr

/-- Row count and column count of an array, with a 1-D array of length
`k` viewed (for broadcasting) as shape `(1, k)`. -/
def NpArr.bshape : NpArr → ℕ × ℕ
  | .one v => (1, v.length)
  | .two A => (A.length, (A.headD []).length)

/-- Entry access for broadcasting: indices are reduced modulo the
dimension size, so a dimension of size 1 repeats its single slot and a
full-size dimension is read directly. -/
def NpArr.bget : NpArr → ℕ × ℕ → ℕ → ℕ → ℚ
  | .one v, sh, _, j => v.getD (j % sh.2) 0
  | .two A, sh, i, j => (A.getD (i % sh.1) []).getD (j % sh.2) 0

/-- Elementwise binary operation with numpy broadcasting, restricted to
arrays of dimension at most two.  Returns `none` exactly when numpy
would raise a broadcasting `ValueError`; the result is 1-D only when
both operands are 1-D, as in numpy. -/
def npBin (f : ℚ → ℚ → ℚ) (a b : NpArr) : Option NpArr :=
  let (ra, ca) := a.bshape
  let (rb, cb) := b.bshape
  if (ra = rb ∨ ra = 1 ∨ rb = 1) ∧ (ca = cb ∨ ca = 1 ∨ cb = 1) then
    let rows := max ra rb
    let cols := max ca cb
    let grid := (List.range rows).map (fun i => (List.range cols).map
      (fun j => f (a.bget (ra, ca) i j) (b.bget (rb, cb) i j)))
    match a, b with
    | .one _, .one _ => some (.one (grid.headD []))
    | _, _ => some (.two grid)
  else none

/-- Numpy elementwise subtraction with broadcasting. -/
def npSub (a b : NpArr) : Option NpArr := npBin (· - ·) a b

/-- Numpy elementwise addition with broadcasting. -/
def npAdd (a b : NpArr) : Option NpArr := npBin (· + ·) a b

/-- Embedding of `np.matmul` / `np.dot` restricted to two 2-D operands, which is the
only case `Model.weights` and `Model.predict` exercise. -/
def npMatmul (a b : NpArr) : Option NpArr :=
  match a, b with
  | .two A, .two B => some (.two (matmulQ A B))
  | _, _ => none

/-- Embedding of `.flatten()`: row-major flattening of an array. -/
def npFlatten : NpArr → List ℚ
  | .one v => v
  | .two A => A.flatten

/-! ### Matrix inversion

`np.linalg.inv` is an external LAPACK routine; it is embedded as an
executable Gauss–Jordan elimination over `ℚ`.  On an invertible matrix
this computes the inverse; no claim in this development depends on the
behaviour at singular input (where numpy raises `LinAlgError`). -/

/-- Swap two rows of a matrix. -/
def swapRows (rows : List (List ℚ)) (i j : ℕ) : List (List ℚ) :=
  (rows.set i (rows.getD j [])).set j (rows.getD i [])

/-- Index of the first row at or below `start` with a nonzero entry in
column `col`. -/
def findPivot (rows : List (List ℚ)) (col start : ℕ) : Option ℕ :=
  ((List.range rows.length).filter
    (fun i => decide (start ≤ i) && decide ((rows.getD i []).getD col 0 ≠ 0))).head?

/-- One Gauss–Jordan step: bring a pivot into position `(col, col)`,
normalise it to 1, and eliminate column `col` from every other row. -/
def gjStep (rows : List (List ℚ)) (col : ℕ) : List (List ℚ) :=
  match findPivot rows col col with
  | none => rows
  | some p =>
    let r1 := swapRows rows col p
    let pv := (r1.getD col []).getD col 0
    let r2 := r1.set col ((r1.getD col []).map (fun a => pv⁻¹ * a))
    mapIdxQ (fun i row =>
      if i = col then row
      else List.zipWith (fun a b => a - (row.getD col 0) * b) row (r2.getD col [])) r2

/-- Gauss–Jordan inverse: eliminate on the matrix augmented with the
identity and read off the right half. -/
def gaussInv (A : List (List ℚ)) : List (List ℚ) :=
  let n := A.length
  let aug := mapIdxQ (fun i row =>
    row ++ (List.range n).map (fun j => if i = j then (1 : ℚ) else 0)) A
  ((List.range n).foldl gjStep aug).map (fun row => row.drop n)

/-! ### Mean functions

Source: `ichor/models/mean/quadratic.py` for the quadratic variant.
The `ZeroMean` and `ConstantMean` classes of `ichor/models/mean` are not
under `src/`. -/

/-- The mean function variants of `ichor.models.mean`. -/
inductive Mean where
  | zero : Mean
  | constant : ℚ → Mean
  | quadratic : List ℚ → List ℚ → ℚ → Mean

/-- Mean value per input row.

For `quadratic` this embeds `QuadraticMean.value` from
`ichor/models/mean/quadratic.py`: `(np.matmul(a * a, self._beta) +
self._ymin).flatten()` with `a = x - xmin` and `_beta = beta[:, np.newaxis]`,
i.e. a **1-D** array whose row `i` entry is `Σ_d β_d (x_i,d − xmin_d)² + ymin`.

Modelled from the spec: the `ZeroMean` and `ConstantMean` classes are not
under `src/`; per spec §4.2 they return one scalar per input row (0,
respectively the stored constant), and per spec §4.3 `weights =
invR · (y − Mean.value(X))` is an `ntrain × 1` column vector, which fixes
their return shape as an `ntrain × 1` column. -/
def Mean.value : Mean → List (List ℚ) → NpArr
  | .zero, X => .two (X.map (fun _ => [0]))
  | .constant c, X => .two (X.map (fun _ => [c]))
  | .quadratic beta xmin ymin, X =>
      .one (X.map (fun row =>
        dotq (List.zipWith (fun a b => (a - b) * (a - b)) row xmin) beta + ymin))

/-! ### The Gaussian-process model

Source: `ichor/models/model.py` (class `Model`).  The kernel classes
(`RBF`, `RBFCyclic`, `KernelInterpreter`) are not under `src/`; per spec
§4.1 the composite kernel evaluates a pairwise covariance between two
feature vectors, with `r(X, Xstar)` the `ntrain × m` matrix of pairwise
values and `R(X)` the `ntrain × ntrain` one, so the kernel is kept
abstract as a pairwise covariance function `cov`. -/

/-- A constructed `Model`: the immutable fields that `Model.__init__` /
`Model._read_file` populate and that the numeric methods read. -/
structure Model where
  nfeats : ℕ
  ntrain : ℕ
  x : List (List ℚ)
  y : List ℚ
  mean : Mean
  cov : List ℚ → List ℚ → ℚ
  nugget : ℚ

/-- Train-test covariance `self.k.r(X, Xstar)`: the `ntrain × m` matrix
of pairwise covariances (spec §4.1). -/
def Model.kr (M : Model) (X Xstar : List (List ℚ)) : List (List ℚ) :=
  X.map (fun xi => Xstar.map (fun xj => M.cov xi xj))

/-- Train-train covariance `self.k.R(X)` (spec §4.1). -/
def Model.kR (M : Model) (X : List (List ℚ)) : List (List ℚ) :=
  X.map (fun xi => X.map (fun xj => M.cov xi xj))

/-- Embeds `Model.R`: `self.k.R(self.x) + (self.nugget * np.eye(self.ntrain))`. -/
def Model.R (M : Model) : List (List ℚ) :=
  addMat (M.kR M.x) (smulMat M.nugget (eyeQ M.ntrain))

/-- Embeds `Model.invR`: `np.linalg.inv(self.R)`. -/
def Model.invR (M : Model) : List (List ℚ) := gaussInv M.R

/-- Embeds `Model.weights`:
`np.matmul(self.invR, self.y[:, np.newaxis] - self.mean.value(self.x))`,
with numpy broadcasting in the subtraction. -/
def Model.weights (M : Model) : Option NpArr :=
  match npSub (.two (M.y.map (fun v => [v]))) (M.mean.value M.x) with
  | none => none
  | some d => npMatmul (.two M.invR) d

/-- Embeds the `check_x_2d` decorator: a 1-D input is promoted to a
single-row matrix (`x[np.newaxis, :]`); a 2-D input is passed through. -/
def promote2d : NpArr → List (List ℚ)
  | .one v => [v]
  | .two A => A

/-- Embeds `Model.predict`:
`(self.mean.value(x) + np.dot(self.k.r(self.x, x).T, self.weights)).flatten()`,
behind `check_x_2d`.  A `none` result is a numpy `ValueError` (shape
mismatch) escaping to the caller. -/
def Model.predict (M : Model) (xs : NpArr) : Option (List ℚ) :=
  let X2 := promote2d xs
  match M.weights with
  | none => none
  | some w =>
    match npMatmul (.two (transposeQ (M.kr M.x X2))) w with
    | none => none
    | some p =>
      match npAdd (M.mean.value X2) p with
      | none => none
      | some s => some (npFlatten s)

/-- Embeds `Model.variance`, behind `check_x_2d`: with
`r = self.k.r(self.x, x).T`, `ones = np.ones((ntrain, 1))` and
`res3 = ones.T @ invR @ ones`, row `i` of the result is
`1 - ri.T @ invR @ ri + (1 - ones.T @ invR @ ri) ** 2 / res3`. -/
def Model.variance (M : Model) (xs : NpArr) : List ℚ :=
  let X2 := promote2d xs
  let r := transposeQ (M.kr M.x X2)
  let invR := M.invR
  let ones := onesQ M.ntrain
  let res3 := dotq (vecMat ones invR) ones
  r.map (fun ri =>
    1 - dotq (vecMat ri invR) ri + (1 - dotq (vecMat ones invR) ri) ^ 2 / res3)

/-- The training-set invariant of a constructed model (spec §3):
`rows(X) = len(y) = ntrain > 0` and `cols(X) = nfeats`. -/
structure Model.WF (M : Model) : Prop where
  x_rows : M.x.length = M.ntrain
  y_len : M.y.length = M.ntrain
  ntrain_pos : 0 < M.ntrain
  x_cols : ∀ row ∈ M.x, row.length = M.nfeats

/-! ### String helpers for the persisted-file parser

Lines are embedded as `List Char`; the helpers below embed the Python
string operations `Model._read_file` uses. -/

/-- A line of the persisted model file. -/
abbrev Line := List Char

/-- Python whitespace (the characters relevant to this file format). -/
def isPySpace (c : Char) : Bool :=
  c = ' ' || c = '\t' || c = '\n' || c = '\r'

/-- Drop a trailing run of characters satisfying `p` (Python `rstrip`). -/
def dropTrailing (p : Char → Bool) (l : List Char) : List Char :=
  (l.reverse.dropWhile p).reverse

/-- Python `str.strip()`. -/
def pyStrip (l : List Char) : List Char :=
  dropTrailing isPySpace (l.dropWhile isPySpace)

/-- Helper for `splitWs`, accumulating the current token reversed. -/
def splitWsAux : List Char → List Char → List (List Char)
  | [], acc => if acc.isEmpty then [] else [acc.reverse]
  | c :: rest, acc =>
    if isPySpace c then
      if acc.isEmpty then splitWsAux rest [] else acc.reverse :: splitWsAux rest []
    else splitWsAux rest (c :: acc)

/-- Python `str.split()` with no argument: split on whitespace runs,
producing no empty tokens. -/
def splitWs (l : List Char) : List (List Char) := splitWsAux l []

/-- Python `sub in line` substring containment. -/
def containsS (sub : String) (l : Line) : Bool :=
  (List.range (l.length + 1)).any (fun i => sub.data.isPrefixOf (l.drop i))

/-- Python `line.startswith(sub)`. -/
def startsS (sub : String) (l : Line) : Bool := sub.data.isPrefixOf l

/-- Python `line.split(sep)` for a single-character separator: split on
every occurrence, keeping empty pieces. -/
def splitOnC (sep : Char) : List Char → List (List Char)
  | [] => [[]]
  | c :: rest =>
    if c = sep then [] :: splitOnC sep rest
    else
      match splitOnC sep rest with
      | [] => [[c]]
      | h :: t => (c :: h) :: t

/-- Numeric value of a run of decimal digits. -/
def natOfDigits (ds : List Char) : ℕ :=
  ds.foldl (fun acc c => acc * 10 + (c.toNat - '0'.toNat)) 0

/-- Split at the first character satisfying `p`; `none` when absent. -/
def splitFirst (p : Char → Bool) (l : List Char) :
    List Char × Option (List Char) :=
  match l.dropWhile (fun c => !(p c)) with
  | [] => (l.takeWhile (fun c => !(p c)), none)
  | _ :: r => (l.takeWhile (fun c => !(p c)), some r)

/-- Parse an optional sign followed by a nonempty digit run. -/
def parseSignedDigits (l : List Char) : Option ℤ :=
  match l with
  | '+' :: r => if r ≠ [] ∧ r.all Char.isDigit then some (natOfDigits r) else none
  | '-' :: r => if r ≠ [] ∧ r.all Char.isDigit then some (-(natOfDigits r : ℤ)) else none
  | r => if r ≠ [] ∧ r.all Char.isDigit then some (natOfDigits r) else none

/-- Embedding of Python `float(token)` on the decimal/scientific fragment
used by the model-file format (`float` is an external builtin; IEEE
rounding is idealised away by evaluating the literal exactly in `ℚ`).
Returns `none` where `float()` raises `ValueError`. -/
def parseFloat (t : List Char) : Option ℚ :=
  let (sgn, body) : ℚ × List Char :=
    match t with
    | '+' :: r => (1, r)
    | '-' :: r => (-1, r)
    | r => (1, r)
  let (mant, expPart) := splitFirst (fun c => c = 'e' || c = 'E') body
  let (ip, fpOpt) := splitFirst (fun c => c = '.') mant
  let fp := fpOpt.getD []
  if ip.all Char.isDigit ∧ fp.all Char.isDigit ∧ (ip ≠ [] ∨ fp ≠ []) then
    match expPart with
    | none => some (sgn * (natOfDigits (ip ++ fp) : ℚ) / 10 ^ fp.length)
    | some ex =>
      match parseSignedDigits ex with
      | none => none
      | some e =>
        some (sgn * (natOfDigits (ip ++ fp) : ℚ) / 10 ^ fp.length * (10 : ℚ) ^ e)
  else none

/-- Embedding of Python `int(token)`; `none` where `int()` raises
`ValueError`. -/
def parseIntT (t : List Char) : Option ℤ := parseSignedDigits t

/-! ### The persisted-file parser

Embedding of `Model._read_file` from `ichor/models/model.py`: a
line-oriented loop with inner `next(f)` calls.  Python exceptions are
the error values below; `stopIteration` is an inner `next(f)` hitting
end of file.  The final `KernelInterpreter(...).interpret()` call is
not embedded (the interpreter class is not under `src/` and no claim
here depends on it); the parsed state keeps the composition string and
the kernel dictionary it would consume. -/

/-- Python exceptions the parser can raise. -/
inductive PErr where
  | stopIteration : PErr
  | indexError : PErr
  | valueError : PErr
deriving DecidableEq, Repr

/-- Kernel hyperparameters read from a `[kernel.<name>]` section:
`RBF(lengthscale)` or `RBFCyclic(lengthscale)`. -/
inductive KernelSpec where
  | rbf : List ℚ → KernelSpec
  | cyclic : List ℚ → KernelSpec
deriving DecidableEq, Repr

/-- Monadic sequencing for `Except` (the `Except.bind` pattern written
out): propagate the exception or continue with the value. -/
def exBind (x : Except PErr α) (f : α → Except PErr β) : Except PErr β :=
  match x with
  | .error e => .error e
  | .ok a => f a

/-- Token access `toks[i]`; `IndexError` when out of range. -/
def tokAt (toks : List (List Char)) (i : ℕ) : Except PErr (List Char) :=
  match toks.get? i with
  | some t => .ok t
  | none => .error .indexError

/-- Token access `toks[-1]`; `IndexError` on an empty list. -/
def tokLast (toks : List (List Char)) : Except PErr (List Char) :=
  match toks.getLast? with
  | some t => .ok t
  | none => .error .indexError

/-- Python `float(...)` raising `ValueError` on failure. -/
def floatE (t : List Char) : Except PErr ℚ :=
  match parseFloat t with
  | some v => .ok v
  | none => .error .valueError

/-- Python `int(...)` raising `ValueError` on failure. -/
def intE (t : List Char) : Except PErr ℤ :=
  match parseIntT t with
  | some v => .ok v
  | none => .error .valueError

/-- The attributes `Model.__init__` / `Model._read_file` populate.
The nugget starts at `1e-10` (set in `__init__` before reading). -/
structure PState where
  system : Option Line := none
  atom : Option Line := none
  ptype : Option Line := none
  nugget : ℚ := 1 / 10 ^ 10
  nfeats : Option ℤ := none
  ntrain : Option ℤ := none
  mean : Option ℚ := none
  composition : Line := []
  kernels : List (Line × KernelSpec) := []
  x : Option (List (List ℚ)) := none
  y : Option (List ℚ) := none
deriving DecidableEq, Repr

/-- Python dict assignment `kernel_list[kernel_name] = v`: update the
existing key in place or append a new one (insertion order kept). -/
def upsert (k : Line) (v : KernelSpec) :
    List (Line × KernelSpec) → List (Line × KernelSpec)
  | [] => [(k, v)]
  | (k0, v0) :: rest => if k0 = k then (k, v) :: rest else (k0, v0) :: upsert k v rest

/-- The kernel-name extraction of the `[kernel.<name>]` branch:
`line.split(".")[-1].rstrip().rstrip("]")`. -/
def kernelName (line : Line) : Line :=
  dropTrailing (fun c => c = ']')
    (dropTrailing isPySpace ((splitOnC '.' line).getLastD []))

/-- The `[training_data.x]` block loop: `line = next(f)`, then rows of
`[float(num) for num in line.split()]` until a blank (stripped) line.
End of file inside the block is a `StopIteration`. -/
def readXRows : List Line → Except PErr (List (List ℚ) × List Line)
  | [] => .error .stopIteration
  | l :: rest =>
    if pyStrip l = [] then .ok ([], rest)
    else
      match (splitWs l).mapM floatE with
      | .error e => .error e
      | .ok row =>
        match readXRows rest with
        | .error e => .error e
        | .ok (rows, rem) => .ok (row :: rows, rem)

/-- The `[training_data.y]` block loop: one `float(line)` per line until
a blank (stripped) line; end of file inside the block is a
`StopIteration`. -/
def readYRows : List Line → Except PErr (List ℚ × List Line)
  | [] => .error .stopIteration
  | l :: rest =>
    if pyStrip l = [] then .ok ([], rest)
    else
      match floatE (pyStrip l) with
      | .error e => .error e
      | .ok v =>
        match readYRows rest with
        | .error e => .error e
        | .ok (vals, rem) => .ok (v :: vals, rem)

/-- Embedding of the `for line in f` loop of `Model._read_file`, with the
branches in source order.  `fuel` bounds the number of loop iterations;
every call consumes at least one line per unit of fuel, so
`parseModel` passes fuel exceeding the line count and the fuel-exhausted
branch (which behaves as end of file) is never reached. -/
def parseAux : ℕ → PState → List Line → Except PErr PState
  | 0, st, _ => .ok st
  | _ + 1, st, [] => .ok st
  | fuel + 1, st, line :: rest =>
    if startsS "#" line then parseAux fuel st rest
    else if containsS "name" line then
      exBind (tokAt (splitWs line) 1) fun t =>
        parseAux fuel { st with system := some t } rest
    else if startsS "atom" line then
      exBind (tokAt (splitWs line) 1) fun t =>
        parseAux fuel { st with atom := some t } rest
    else if containsS "property" line then
      exBind (tokAt (splitWs line) 1) fun t =>
        parseAux fuel { st with ptype := some t } rest
    else if containsS "nugget" line then
      exBind (tokLast (splitWs line)) fun t =>
        exBind (floatE t) fun v =>
          parseAux fuel { st with nugget := v } rest
    else if containsS "number_of_features" line then
      exBind (tokAt (splitWs line) 1) fun t =>
        exBind (intE t) fun v =>
          parseAux fuel { st with nfeats := some v } rest
    else if containsS "number_of_training_points" line then
      exBind (tokAt (splitWs line) 1) fun t =>
        exBind (intE t) fun v =>
          parseAux fuel { st with ntrain := some v } rest
    else if containsS "[mean]" line then
      match rest with
      | [] => .error .stopIteration
      | [_] => .error .stopIteration
      | _ :: l2 :: rest3 =>
        exBind (tokAt (splitWs l2) 1) fun t =>
          exBind (floatE t) fun v =>
            parseAux fuel { st with mean := some v } rest3
    else if containsS "composition" line then
      exBind (tokLast (splitWs line)) fun t =>
        parseAux fuel { st with composition := t } rest
    else if containsS "[kernel." line then
      match rest with
      | [] => .error .stopIteration
      | l2 :: rest2 =>
        exBind (tokLast (splitWs l2)) fun tt =>
          if pyStrip tt = "rbf".data then
            match rest2 with
            | [] => .error .stopIteration
            | [_] => .error .stopIteration
            | [_, _] => .error .stopIteration
            | _ :: _ :: l5 :: rest5 =>
              exBind (((splitWs l5).drop 1).mapM floatE) fun ls =>
                parseAux fuel
                  { st with kernels := upsert (kernelName line) (.rbf ls) st.kernels }
                  rest5
          else if pyStrip tt = "rbf-cyclic".data ∨ pyStrip tt = "rbf-cylic".data then
            match rest2 with
            | [] => .error .stopIteration
            | [_] => .error .stopIteration
            | [_, _] => .error .stopIteration
            | _ :: _ :: l5 :: rest5 =>
              exBind (((splitWs l5).drop 1).mapM floatE) fun ls =>
                parseAux fuel
                  { st with kernels := upsert (kernelName line) (.cyclic ls) st.kernels }
                  rest5
          else parseAux fuel st rest2
    else if containsS "[training_data.x]" line then
      exBind (readXRows rest) fun pr =>
        parseAux fuel { st with x := some pr.1 } pr.2
    else if containsS "[training_data.y]" line then
      exBind (readYRows rest) fun pr =>
        parseAux fuel { st with y := some pr.1 } pr.2
    else parseAux fuel st rest

/-- Embedding of `Model._read_file` on a whole file, given as its list
of lines. -/
def parseModel (lines : List String) : Except PErr PState :=
  parseAux (lines.length + 1) {} (lines.map String.data)

/-! ### The random point selector

Source: `ichor/cli/make_set_methods/random.py`.
`RandomPoints.get_points(points)` returns
`random.sample(range(len(points)), k=min(self.npoints, len(points)))`;
only `len(points)` is consumed, so the pool is embedded by its size.

The stdlib `random.sample` is external; it is embedded by its documented
behaviour and CPython's pool-copy algorithm: reject `k` outside
`0 ≤ k ≤ n` with `ValueError`, otherwise select `k` elements without
replacement, at each step picking a position in the still-active prefix
of a copied pool and swapping the last active element into it.  The
randomness source is an arbitrary function `rng` giving the raw draw of
each step (reduced modulo the active size), so theorems quantify over
every possible random stream. -/

/-- One selection pass of the pool-copy sampling algorithm:
`result[i] = pool[j]; pool[j] = pool[n - i - 1]` with `j` random below
the active size.  The empty-pool guard is unreachable when `k` is at
most the pool size, as `pySample` guarantees. -/
def sampleAux (rng : ℕ → ℕ) : List ℕ → ℕ → ℕ → List ℕ
  | _, 0, _ => []
  | pool, k + 1, i =>
    let m := pool.length
    if m = 0 then []
    else
      let j := rng i % m
      let x := pool.getD j 0
      let pool1 := (pool.set j (pool.getD (m - 1) 0)).take (m - 1)
      x :: sampleAux rng pool1 k (i + 1)

/-- Embedding of `random.sample(range(n), k)`. -/
def pySample (rng : ℕ → ℕ) (n : ℕ) (k : ℤ) : Except String (List ℕ) :=
  if 0 ≤ k ∧ k ≤ (n : ℤ) then .ok (sampleAux rng (List.range n) k.toNat 0)
  else .error "Sample larger than population or is negative"

/-- The `RandomPoints` selector (its `npoints` constructor argument). -/
structure RandomPoints where
  npoints : ℤ

/-- Embedding of `RandomPoints.get_points`:
`random.sample(range(len(points)), k=min(self.npoints, len(points)))`. -/
def RandomPoints.get_points (self : RandomPoints) (npool : ℕ)
    (rng : ℕ → ℕ) : Except String (List ℕ) :=
  pySample rng npool (min self.npoints (npool : ℤ))

/-! ### Concrete models used by witnesses and counterexamples -/

/-- Indicator covariance: a simple valid pairwise kernel for concrete
instantiations (it makes the train-train matrix the identity). -/
def covInd : List ℚ → List ℚ → ℚ := fun a b => if a = b then 1 else 0

/-- A well-formed constant-mean model on two one-feature training points. -/
def mdlConst : Model :=
  { nfeats := 1, ntrain := 2, x := [[0], [1]], y := [3, 5],
    mean := .constant 1, cov := covInd, nugget := 0 }

/-- A well-formed quadratic-mean model on two one-feature training
points: `QuadraticMean([1], [0], 0)`, whose `value` returns a
**flattened 1-D** array. -/
def mdlQuad : Model :=
  { nfeats := 1, ntrain := 2, x := [[0], [1]], y := [0, 0],
    mean := .quadratic [1] [0] 0, cov := covInd, nugget := 0 }

/-- A constant-mean model with two features, used to probe `predict` on
an input whose column count differs from `nfeats`. -/
def mdlTwoFeat : Model :=
  { nfeats := 2, ntrain := 1, x := [[0, 0]], y := [1],
    mean := .constant 0, cov := fun _ _ => 1, nugget := 0 }

/-! ### Shared helper lemmas -/

theorem length_mapIdxQ (f : ℕ → α → β) (l : List α) :
    (mapIdxQ f l).length = l.length := by
  simp [mapIdxQ]

theorem length_swapRows (rows : List (List ℚ)) (i j : ℕ) :
    (swapRows rows i j).length = rows.length := by
  simp [swapRows]

theorem length_gjStep (rows : List (List ℚ)) (col : ℕ) :
    (gjStep rows col).length = rows.length := by
  unfold gjStep
  cases findPivot rows col col with
  | none => rfl
  | some p => simp [length_mapIdxQ, length_swapRows]

theorem length_gjSteps (cols : List ℕ) (rows : List (List ℚ)) :
    (cols.foldl gjStep rows).length = rows.length := by
  induction cols generalizing rows with
  | nil => rfl
  | cons c cs ih => simp [List.foldl_cons, ih, length_gjStep]

/-- The function `gaussInv` returns a matrix with as many rows as its input, as
`np.linalg.inv` does. -/
theorem length_gaussInv (A : List (List ℚ)) : (gaussInv A).length = A.length := by
  simp [gaussInv, length_gjSteps, length_mapIdxQ]

theorem transposeQ_length (A : List (List ℚ)) :
    (transposeQ A).length = (A.headD []).length := by
  simp [transposeQ]

theorem transposeQ_getD (A : List (List ℚ)) (i : ℕ)
    (h : i < (A.headD []).length) :
    (transposeQ A).getD i [] = A.map (fun row => row.getD i 0) := by
  unfold transposeQ
  rw [List.getD_eq_getElem _ _ (by simpa using h)]
  simp

theorem kr_headD_length (M : Model) (rows : List (List ℚ)) (hx : M.x ≠ []) :
    ((M.kr M.x rows).headD []).length = rows.length := by
  cases hxe : M.x with
  | nil => exact absurd hxe hx
  | cons x0 xs => simp [Model.kr, hxe]

theorem Model.WF.x_ne_nil {M : Model} (hWF : M.WF) : M.x ≠ [] := by
  have h1 := hWF.x_rows
  have h2 := hWF.ntrain_pos
  intro hnil
  rw [hnil] at h1
  simp at h1
  omega

theorem length_R (M : Model) (hx : M.x.length = M.ntrain) :
    M.R.length = M.ntrain := by
  simp [Model.R, addMat, Model.kR, smulMat, eyeQ, hx]

theorem length_invR (M : Model) (hx : M.x.length = M.ntrain) :
    M.invR.length = M.ntrain := by
  rw [Model.invR, length_gaussInv, length_R M hx]

theorem flatten_singleton_map (f : α → ℚ) (l : List α) :
    (l.map (fun a => [f a])).flatten = l.map f := by
  induction l with
  | nil => rfl
  | cons a t ih => simp [ih]

theorem npFlatten_col (L : List ℚ) :
    npFlatten (.two (L.map (fun w => [w]))) = L := by
  rw [show npFlatten (NpArr.two (L.map (fun w => [w]))) =
    (L.map (fun w => [w])).flatten from rfl]
  rw [show L.map (fun w => ([w] : List ℚ)) =
    L.map (fun w => [(fun u => u) w]) from rfl, flatten_singleton_map]
  simp

theorem npFlatten_const_col (X : List (List ℚ)) (k : ℚ) :
    npFlatten (.two (X.map fun _ => [k])) = X.map (fun _ => k) := by
  rw [show npFlatten (NpArr.two (X.map fun _ => [k])) =
    (X.map (fun a => [(fun _ => k) a])).flatten from rfl, flatten_singleton_map]

theorem map_singleton_getD (C : List ℚ) (i : ℕ) (hi : i < C.length) :
    (C.map (fun v => [v])).getD i [] = [C.getD i 0] := by
  rw [List.getD_eq_getElem _ _ (by simpa using hi), List.getElem_map,
    List.getD_eq_getElem _ _ hi]

theorem range_map_getD_zipWith (f : ℚ → ℚ → ℚ) (A B : List ℚ)
    (h : A.length = B.length) :
    (List.range A.length).map (fun i => f (A.getD i 0) (B.getD i 0)) =
      List.zipWith f A B := by
  induction A generalizing B with
  | nil => simp
  | cons a as ih =>
    cases B with
    | nil => simp at h
    | cons b bs =>
      rw [List.length_cons, List.range_succ_eq_map, List.map_cons, List.map_map]
      rw [List.zipWith_cons_cons]
      have hlen : as.length = bs.length := by simpa using h
      congr 1
      rw [← ih bs hlen]
      apply List.map_congr_left
      intro i _
      simp [Function.comp]

theorem col_bget (C : List ℚ) (i : ℕ) (hi : i < C.length) :
    ((C.map (fun v => [v])).getD (i % C.length) []).getD (0 % 1) 0 =
      C.getD i 0 := by
  rw [Nat.mod_eq_of_lt hi, Nat.zero_mod, map_singleton_getD C i hi]
  rfl

/-- Broadcasting an elementwise operation over two equal-length column
vectors is the columnwise `zipWith`. -/
theorem npBin_col_col (f : ℚ → ℚ → ℚ) (A B : List ℚ) (h : A.length = B.length) :
    npBin f (.two (A.map (fun a => [a]))) (.two (B.map (fun b => [b]))) =
      some (.two ((List.zipWith f A B).map (fun v => [v]))) := by
  cases A with
  | nil =>
    cases B with
    | nil => rfl
    | cons b bs => simp at h
  | cons a as =>
    cases B with
    | nil => simp at h
    | cons b bs =>
      have hlen : bs.length = as.length := by simpa using h.symm
      have hr1 : List.range 1 = [0] := by decide
      simp only [npBin, NpArr.bshape, NpArr.bget, List.length_map,
        List.map_cons, List.headD_cons, List.length_cons, List.length_nil,
        Nat.zero_add, hlen, max_self, hr1, List.map_cons, List.map_nil]
      rw [if_pos ⟨Or.inl trivial, Or.inl trivial⟩]
      refine congrArg some (congrArg NpArr.two ?_)
      have hmaps :
          (List.range (as.length + 1)).map (fun i =>
            [f ((([a] :: as.map (fun v => [v])).getD (i % (as.length + 1)) []).getD
                (0 % 1) 0)
              ((([b] :: bs.map (fun v => [v])).getD (i % (as.length + 1)) []).getD
                (0 % 1) 0)]) =
          (List.range (as.length + 1)).map (fun i =>
            [f ((a :: as).getD i 0) ((b :: bs).getD i 0)]) := by
        apply List.map_congr_left
        intro i hi
        have hi2 : i < as.length + 1 := List.mem_range.mp hi
        have e1 := col_bget (a :: as) i (by simpa using hi2)
        have e2 := col_bget (b :: bs) i (by simp [hlen]; omega)
        simp only [List.map_cons, List.length_cons, hlen] at e1 e2
        rw [e1, e2]
      rw [hmaps, show (fun i => [f ((a :: as).getD i 0) ((b :: bs).getD i 0)]) =
        (fun v => [v]) ∘ (fun i => f ((a :: as).getD i 0) ((b :: bs).getD i 0))
        from rfl]
      rw [← List.map_map]
      rw [show as.length + 1 = (a :: as).length from rfl,
        range_map_getD_zipWith f (a :: as) (b :: bs) (by simp [hlen])]

/-- Multiplying a matrix by a nonempty column vector is `matVec`. -/
theorem matmulQ_col (A : List (List ℚ)) (B : List ℚ) (hB : B ≠ []) :
    matmulQ A (B.map (fun b => [b])) = (matVec A B).map (fun v => [v]) := by
  cases B with
  | nil => exact absurd rfl hB
  | cons b bs =>
    have hr1 : List.range 1 = [0] := by decide
    simp only [matmulQ, matVec, List.map_cons, List.headD_cons,
      List.length_cons, List.length_nil, Nat.zero_add, hr1, List.map_map]
    apply List.map_congr_left
    intro row _
    have hc : ((fun (brow : List ℚ) => brow.getD 0 0) ∘ fun (v : ℚ) => [v]) =
        fun v => v := by
      funext v
      rfl
    rw [hc]
    simp

/-- A zero or constant mean evaluates to a column of one constant. -/
theorem mean_col_exists {M : Model}
    (hmean : M.mean = .zero ∨ ∃ c, M.mean = .constant c) :
    ∃ k, ∀ X, M.mean.value X = .two (X.map fun _ => [k]) := by
  rcases hmean with h | ⟨c, h⟩
  · exact ⟨0, fun X => by rw [h]; rfl⟩
  · exact ⟨c, fun X => by rw [h]; rfl⟩

/-- Evaluation of `Model.weights` when the mean returns a constant
column: the broadcast subtraction is columnwise and the product is a
matrix-vector product, kept as a column. -/
theorem weights_col (M : Model) (hWF : M.WF) (k : ℚ)
    (hk : ∀ X, M.mean.value X = .two (X.map fun _ => [k])) :
    M.weights = some (.two ((matVec M.invR
      (List.zipWith (· - ·) M.y (M.x.map (fun _ => k)))).map (fun w => [w]))) := by
  unfold Model.weights
  rw [hk M.x]
  rw [show M.x.map (fun _ => ([k] : List ℚ)) =
    (M.x.map (fun _ => k)).map (fun v => [v]) by rw [List.map_map]; rfl]
  rw [show npSub = npBin (· - ·) from rfl]
  rw [npBin_col_col (· - ·) M.y (M.x.map fun _ => k)
    (by rw [List.length_map, hWF.y_len, hWF.x_rows])]
  have hD : List.zipWith (· - ·) M.y (M.x.map fun _ => k) ≠ [] := by
    have h1 := hWF.y_len
    have h2 := hWF.x_rows
    have h3 := hWF.ntrain_pos
    intro hnil
    have := congrArg List.length hnil
    rw [List.length_zipWith, List.length_map, h1, h2, min_self] at this
    simp at this
    omega
  simp only [npMatmul]
  rw [matmulQ_col M.invR _ hD]

/-- Evaluation of `Model.predict` on a 2-D input when the mean returns a
constant column. -/
theorem predict_eval (M : Model) (rows : List (List ℚ)) (k : ℚ) (hWF : M.WF)
    (hk : ∀ X, M.mean.value X = .two (X.map fun _ => [k])) :
    M.predict (.two rows) =
      some (List.zipWith (· + ·) (rows.map (fun _ => k))
        (matVec (transposeQ (M.kr M.x rows))
          (matVec M.invR (List.zipWith (· - ·) M.y (M.x.map (fun _ => k)))))) := by
  unfold Model.predict
  rw [weights_col M hWF k hk]
  simp only [promote2d]
  have hwv : matVec M.invR (List.zipWith (· - ·) M.y (M.x.map fun _ => k)) ≠ [] := by
    intro hnil
    have := congrArg List.length hnil
    rw [matVec, List.length_map, length_invR M hWF.x_rows] at this
    have h3 := hWF.ntrain_pos
    simp at this
    omega
  simp only [npMatmul]
  rw [matmulQ_col _ _ hwv]
  rw [hk rows]
  rw [show rows.map (fun _ => ([k] : List ℚ)) =
    (rows.map (fun _ => k)).map (fun v => [v]) by rw [List.map_map]; rfl]
  rw [show npAdd = npBin (· + ·) from rfl]
  have hlenP : (matVec (transposeQ (M.kr M.x rows))
      (matVec M.invR (List.zipWith (· - ·) M.y (M.x.map fun _ => k)))).length =
      rows.length := by
    rw [matVec, List.length_map, transposeQ_length,
      kr_headD_length M rows hWF.x_ne_nil]
  rw [npBin_col_col (· + ·) (rows.map fun _ => k) _
    (by rw [List.length_map, hlenP])]
  simp only [npFlatten]
  rw [flatten_singleton_map]
  simp

/-! ### Claim C1 — predictive variance formula -/

/-- C1: for every constructed model and test matrix `Xstar` of `m` rows
with `nfeats` columns, `variance(Xstar)` returns an `m`-length vector
whose `i`-th entry is `1 - a + b / c` with `r_i` the train-test
covariance column for row `i`, `a = r_iᵀ·invR·r_i`,
`b = (1 - onesᵀ·invR·r_i)²`, `c = onesᵀ·invR·ones`; rows stay in input
order. -/
theorem variance_rowwise_formula (M : Model) (rows : List (List ℚ))
    (hWF : M.WF) (hcols : ∀ r ∈ rows, r.length = M.nfeats) :
    (M.variance (.two rows)).length = rows.length ∧
    ∀ i, i < rows.length →
      (M.variance (.two rows)).getD i 0 =
        (fun ri =>
          1 - dotq (vecMat ri M.invR) ri +
            (1 - dotq (vecMat (onesQ M.ntrain) M.invR) ri) ^ 2 /
              dotq (vecMat (onesQ M.ntrain) M.invR) (onesQ M.ntrain))
        ((M.kr M.x rows).map (fun krow => krow.getD i 0)) := by
  have hx : M.x ≠ [] := by
    have h1 := hWF.x_rows
    have h2 := hWF.ntrain_pos
    intro hnil
    rw [hnil] at h1
    simp at h1
    omega
  have hlen : ((M.kr M.x rows).headD []).length = rows.length :=
    kr_headD_length M rows hx
  constructor
  · simp only [Model.variance, promote2d]
    rw [List.length_map, transposeQ_length, hlen]
  · intro i hi
    have hi2 : i < (transposeQ (M.kr M.x rows)).length := by
      rw [transposeQ_length, hlen]; exact hi
    simp only [Model.variance, promote2d]
    rw [List.getD_eq_getElem _ _ (by simpa using hi2)]
    rw [List.getElem_map]
    rw [← List.getD_eq_getElem (transposeQ (M.kr M.x rows)) []
      (by simpa using hi2)]
    rw [transposeQ_getD _ _ (by rw [hlen]; exact hi)]

/-! ### Parser lemmas -/

theorem parseAux_zero (st : PState) (lines : List Line) :
    parseAux 0 st lines = .ok st := by
  cases lines <;> rfl

theorem parseAux_nil (fuel : ℕ) (st : PState) :
    parseAux (fuel + 1) st [] = .ok st := rfl

/-- One-step unfolding of the parser loop (the automatic equation
generator does not handle the nested matches). -/
theorem parseAux_cons (fuel : ℕ) (st : PState) (line : Line)
    (rest : List Line) :
    parseAux (fuel + 1) st (line :: rest) =
      (if startsS "#" line then parseAux fuel st rest
      else if containsS "name" line then
        exBind (tokAt (splitWs line) 1) fun t =>
          parseAux fuel { st with system := some t } rest
      else if startsS "atom" line then
        exBind (tokAt (splitWs line) 1) fun t =>
          parseAux fuel { st with atom := some t } rest
      else if containsS "property" line then
        exBind (tokAt (splitWs line) 1) fun t =>
          parseAux fuel { st with ptype := some t } rest
      else if containsS "nugget" line then
        exBind (tokLast (splitWs line)) fun t =>
          exBind (floatE t) fun v =>
            parseAux fuel { st with nugget := v } rest
      else if containsS "number_of_features" line then
        exBind (tokAt (splitWs line) 1) fun t =>
          exBind (intE t) fun v =>
            parseAux fuel { st with nfeats := some v } rest
      else if containsS "number_of_training_points" line then
        exBind (tokAt (splitWs line) 1) fun t =>
          exBind (intE t) fun v =>
            parseAux fuel { st with ntrain := some v } rest
      else if containsS "[mean]" line then
        match rest with
        | [] => .error .stopIteration
        | [_] => .error .stopIteration
        | _ :: l2 :: rest3 =>
          exBind (tokAt (splitWs l2) 1) fun t =>
            exBind (floatE t) fun v =>
              parseAux fuel { st with mean := some v } rest3
      else if containsS "composition" line then
        exBind (tokLast (splitWs line)) fun t =>
          parseAux fuel { st with composition := t } rest
      else if containsS "[kernel." line then
        match rest with
        | [] => .error .stopIteration
        | l2 :: rest2 =>
          exBind (tokLast (splitWs l2)) fun tt =>
            if pyStrip tt = "rbf".data then
              match rest2 with
              | [] => .error .stopIteration
              | [_] => .error .stopIteration
              | [_, _] => .error .stopIteration
              | _ :: _ :: l5 :: rest5 =>
                exBind (((splitWs l5).drop 1).mapM floatE) fun ls =>
                  parseAux fuel
                    { st with
                      kernels := upsert (kernelName line) (.rbf ls) st.kernels }
                    rest5
            else if pyStrip tt = "rbf-cyclic".data ∨
                pyStrip tt = "rbf-cylic".data then
              match rest2 with
              | [] => .error .stopIteration
              | [_] => .error .stopIteration
              | [_, _] => .error .stopIteration
              | _ :: _ :: l5 :: rest5 =>
                exBind (((splitWs l5).drop 1).mapM floatE) fun ls =>
                  parseAux fuel
                    { st with
                      kernels := upsert (kernelName line) (.cyclic ls) st.kernels }
                    rest5
            else parseAux fuel st rest2
      else if containsS "[training_data.x]" line then
        exBind (readXRows rest) fun pr =>
          parseAux fuel { st with x := some pr.1 } pr.2
      else if containsS "[training_data.y]" line then
        exBind (readYRows rest) fun pr =>
          parseAux fuel { st with y := some pr.1 } pr.2
      else parseAux fuel st rest) := rfl

theorem exBind_error (e : PErr) (f : α → Except PErr β) :
    exBind (.error e) f = .error e := rfl

theorem exBind_ok (a : α) (f : α → Except PErr β) :
    exBind (.ok a) f = f a := rfl

theorem readXRows_subset (ls : List Line) (rows : List (List ℚ))
    (rem : List Line) (h : readXRows ls = .ok (rows, rem)) :
    ∀ l ∈ rem, l ∈ ls := by
  induction ls generalizing rows rem with
  | nil => simp [readXRows] at h
  | cons l rest ih =>
    rw [readXRows] at h
    split at h
    · intro a ha
      simp only [Except.ok.injEq, Prod.mk.injEq] at h
      right
      rw [h.2]
      exact ha
    · split at h
      · cases h
      · split at h
        · cases h
        · rename_i rows2 rem2 heq
          simp only [Except.ok.injEq, Prod.mk.injEq] at h
          intro a ha
          right
          exact ih rows2 rem2 heq a (by rw [h.2]; exact ha)

theorem readYRows_subset (ls : List Line) (vals : List ℚ)
    (rem : List Line) (h : readYRows ls = .ok (vals, rem)) :
    ∀ l ∈ rem, l ∈ ls := by
  induction ls generalizing vals rem with
  | nil => simp [readYRows] at h
  | cons l rest ih =>
    rw [readYRows] at h
    split at h
    · intro a ha
      simp only [Except.ok.injEq, Prod.mk.injEq] at h
      right
      rw [h.2]
      exact ha
    · split at h
      · cases h
      · split at h
        · cases h
        · rename_i vals2 rem2 heq
          simp only [Except.ok.injEq, Prod.mk.injEq] at h
          intro a ha
          right
          exact ih vals2 rem2 heq a (by rw [h.2]; exact ha)

/-- A `[training_data.x]` block whose every remaining line is a nonblank,
parseable data row runs off the end of the file: the inner `next(f)`
raises `StopIteration`. -/
theorem readXRows_eof (ls : List Line)
    (h : ∀ l ∈ ls, pyStrip l ≠ [] ∧ ∃ r, (splitWs l).mapM floatE = .ok r) :
    readXRows ls = .error .stopIteration := by
  induction ls with
  | nil => rfl
  | cons l rest ih =>
    obtain ⟨hs, r, hr⟩ := h l (by simp)
    rw [readXRows, if_neg hs, hr, ih (fun a ha => h a (by simp [ha]))]

theorem readYRows_eof (ls : List Line)
    (h : ∀ l ∈ ls, pyStrip l ≠ [] ∧ ∃ v, floatE (pyStrip l) = .ok v) :
    readYRows ls = .error .stopIteration := by
  induction ls with
  | nil => rfl
  | cons l rest ih =>
    obtain ⟨hs, v, hv⟩ := h l (by simp)
    rw [readYRows, if_neg hs, hv, ih (fun a ha => h a (by simp [ha]))]

/-- A blank-terminated `[training_data.x]` block stores exactly one row
per nonblank line — whatever their number — and hands back the lines
after the blank. -/
theorem readXRows_blank_terminated (rows post : List Line)
    (h : ∀ l ∈ rows, pyStrip l ≠ [] ∧ ∃ r, (splitWs l).mapM floatE = .ok r) :
    ∃ rs, readXRows (rows ++ [] :: post) = .ok (rs, post) ∧
      rs.length = rows.length := by
  induction rows with
  | nil => exact ⟨[], rfl, rfl⟩
  | cons l rest ih =>
    obtain ⟨hs, r, hr⟩ := h l (by simp)
    obtain ⟨rs, hrs, hlen⟩ := ih (fun a ha => h a (by simp [ha]))
    refine ⟨r :: rs, ?_, by simp [hlen]⟩
    rw [List.cons_append, readXRows, if_neg hs, hr, hrs]

theorem readYRows_blank_terminated (rows post : List Line)
    (h : ∀ l ∈ rows, pyStrip l ≠ [] ∧ ∃ v, floatE (pyStrip l) = .ok v) :
    ∃ vs, readYRows (rows ++ [] :: post) = .ok (vs, post) ∧
      vs.length = rows.length := by
  induction rows with
  | nil => exact ⟨[], rfl, rfl⟩
  | cons l rest ih =>
    obtain ⟨hs, v, hv⟩ := h l (by simp)
    obtain ⟨vs, hvs, hlen⟩ := ih (fun a ha => h a (by simp [ha]))
    refine ⟨v :: vs, ?_, by simp [hlen]⟩
    rw [List.cons_append, readYRows, if_neg hs, hv, hvs]

/-- One parser step on a `[training_data.x]` header line. -/
theorem parseAux_xblock (fuel : ℕ) (st : PState) (rest : List Line) :
    parseAux (fuel + 1) st ("[training_data.x]".data :: rest) =
      exBind (readXRows rest) fun pr =>
        parseAux fuel { st with x := some pr.1 } pr.2 := rfl

/-- One parser step on a `[training_data.y]` header line. -/
theorem parseAux_yblock (fuel : ℕ) (st : PState) (rest : List Line) :
    parseAux (fuel + 1) st ("[training_data.y]".data :: rest) =
      exBind (readYRows rest) fun pr =>
        parseAux fuel { st with y := some pr.1 } pr.2 := rfl

/-! ### Claim C10 — unterminated training blocks -/

/-- C10: whenever the parser reaches a `[training_data.x]` or
`[training_data.y]` header whose block runs to end of file without a
terminating blank line (every remaining line a nonblank, parseable data
row, or no line at all), `_read_file` raises `StopIteration` from the
inner `next(f)` call instead of returning a parsed model, so the rows
read so far are never stored. -/
theorem unterminated_block_stopiteration (fuel : ℕ) (st : PState)
    (xrows yrows : List Line)
    (hx : ∀ l ∈ xrows, pyStrip l ≠ [] ∧ ∃ r, (splitWs l).mapM floatE = .ok r)
    (hy : ∀ l ∈ yrows, pyStrip l ≠ [] ∧ ∃ v, floatE (pyStrip l) = .ok v) :
    parseAux (fuel + 1) st ("[training_data.x]".data :: xrows) =
      .error .stopIteration ∧
    parseAux (fuel + 1) st ("[training_data.y]".data :: yrows) =
      .error .stopIteration := by
  constructor
  · rw [parseAux_xblock, readXRows_eof xrows hx, exBind_error]
  · rw [parseAux_yblock, readYRows_eof yrows hy, exBind_error]

/-- Witness for C10: two-line files whose data block hits end of file. -/
theorem unterminated_block_stopiteration_witness :
    parseModel ["[training_data.x]", "1.0"] = .error .stopIteration ∧
    parseModel ["[training_data.y]", "1.0"] = .error .stopIteration :=
  ⟨(unterminated_block_stopiteration 1 {} ["1.0".data] ["1.0".data]
      (by
        intro l hl
        simp only [List.mem_singleton] at hl
        subst hl
        exact ⟨by decide, ⟨[1], rfl⟩⟩)
      (by
        intro l hl
        simp only [List.mem_singleton] at hl
        subst hl
        exact ⟨by decide, ⟨1, rfl⟩⟩)).1,
    (unterminated_block_stopiteration 1 {} ["1.0".data] ["1.0".data]
      (by
        intro l hl
        simp only [List.mem_singleton] at hl
        subst hl
        exact ⟨by decide, ⟨[1], rfl⟩⟩)
      (by
        intro l hl
        simp only [List.mem_singleton] at hl
        subst hl
        exact ⟨by decide, ⟨1, rfl⟩⟩)).2⟩

/-! ### Claim C6 — training-data block sizes (corrected) -/

/-- C6 (amended): a blank-terminated `[training_data.x]` block is stored
as one row per nonblank line and a `[training_data.y]` block as one
value per nonblank line, **whatever the current
`number_of_training_points` and `number_of_features` are**: the parser
performs no count validation, so a file whose blocks disagree with the
declared counts is accepted, not rejected. -/
theorem training_blocks_not_validated (fuel : ℕ) (st : PState)
    (xrows yrows post1 post2 : List Line)
    (hx : ∀ l ∈ xrows, pyStrip l ≠ [] ∧ ∃ r, (splitWs l).mapM floatE = .ok r)
    (hy : ∀ l ∈ yrows, pyStrip l ≠ [] ∧ ∃ v, floatE (pyStrip l) = .ok v) :
    (∃ rs, rs.length = xrows.length ∧
      parseAux (fuel + 1) st ("[training_data.x]".data :: (xrows ++ [] :: post1)) =
        parseAux fuel { st with x := some rs } post1) ∧
    (∃ vs, vs.length = yrows.length ∧
      parseAux (fuel + 1) st ("[training_data.y]".data :: (yrows ++ [] :: post2)) =
        parseAux fuel { st with y := some vs } post2) := by
  constructor
  · obtain ⟨rs, hrs, hlen⟩ := readXRows_blank_terminated xrows post1 hx
    exact ⟨rs, hlen, by rw [parseAux_xblock, hrs, exBind_ok]⟩
  · obtain ⟨vs, hvs, hlen⟩ := readYRows_blank_terminated yrows post2 hy
    exact ⟨vs, hlen, by rw [parseAux_yblock, hvs, exBind_ok]⟩

/-- Witness for C6 (amended), with a state declaring
`number_of_training_points = 2` yet a 3-row x block and a 1-row y
block. -/
theorem training_blocks_not_validated_witness :
    (∃ rs, rs.length = 3 ∧
      parseAux 2 { ntrain := some 2 }
        ("[training_data.x]".data :: (["1.0".data, "2.0".data, "3.0".data] ++ [] :: [])) =
        parseAux 1 { ntrain := some 2, x := some rs } []) ∧
    (∃ vs, vs.length = 1 ∧
      parseAux 2 { ntrain := some 2 }
        ("[training_data.y]".data :: (["7.0".data] ++ [] :: [])) =
        parseAux 1 { ntrain := some 2, y := some vs } []) :=
  training_blocks_not_validated 1 { ntrain := some 2 }
    ["1.0".data, "2.0".data, "3.0".data] ["7.0".data] [] []
    (by
      intro l hl
      simp at hl
      rcases hl with rfl | rfl | rfl
      · exact ⟨by decide, ⟨[1], rfl⟩⟩
      · exact ⟨by decide, ⟨[2], rfl⟩⟩
      · exact ⟨by decide, ⟨[3], rfl⟩⟩)
    (by
      intro l hl
      simp only [List.mem_singleton] at hl
      subst hl
      exact ⟨by decide, ⟨7, rfl⟩⟩)

/-- C6 counterexample: a complete file declaring
`number_of_training_points 2` whose x block has 3 rows and whose y block
has 1 value parses successfully (no parse error), storing the mismatched
data as-is. -/
theorem training_count_mismatch_accepted :
    (parseModel ["number_of_training_points 2", "number_of_features 1",
      "[training_data.x]", "1.0", "2.0", "3.0", "",
      "[training_data.y]", "7.0", ""]).toOption.map
        (fun st => (st.ntrain, st.x, st.y)) =
      some (some 2, some [[1], [2], [3]], some [7]) := by decide

/-! ### Claim C4 — kernel section line consumption (corrected) -/

/-- C4 (amended): a `[kernel.<name>]` section whose type line is `rbf`
skips exactly **two** header lines and parses the **third** following
line as the data line (first token discarded, remaining tokens the
lengthscale vector); the `rbf-cyclic` / `rbf-cylic` types skip exactly
the **same two** lines — not two more — before the same data-line
format. -/
theorem kernel_sections_skip_two (fuel : ℕ) (st : PState)
    (kline tline h1 h2 dline : Line) (post : List Line) (tt : Line) (ls : List ℚ)
    (hc1 : startsS "#" kline = false)
    (hc2 : containsS "name" kline = false)
    (hc3 : startsS "atom" kline = false)
    (hc4 : containsS "property" kline = false)
    (hc5 : containsS "nugget" kline = false)
    (hc6 : containsS "number_of_features" kline = false)
    (hc7 : containsS "number_of_training_points" kline = false)
    (hc8 : containsS "[mean]" kline = false)
    (hc9 : containsS "composition" kline = false)
    (hc10 : containsS "[kernel." kline = true)
    (htok : tokLast (splitWs tline) = .ok tt)
    (hls : ((splitWs dline).drop 1).mapM floatE = .ok ls) :
    (pyStrip tt = "rbf".data →
      parseAux (fuel + 1) st (kline :: tline :: h1 :: h2 :: dline :: post) =
        parseAux fuel
          { st with kernels := upsert (kernelName kline) (.rbf ls) st.kernels }
          post) ∧
    ((pyStrip tt = "rbf-cyclic".data ∨ pyStrip tt = "rbf-cylic".data) →
      parseAux (fuel + 1) st (kline :: tline :: h1 :: h2 :: dline :: post) =
        parseAux fuel
          { st with kernels := upsert (kernelName kline) (.cyclic ls) st.kernels }
          post) := by
  constructor
  · intro hstrip
    rw [parseAux_cons]
    simp only [hc1, hc2, hc3, hc4, hc5, hc6, hc7, hc8, hc9, hc10, htok, hls,
      hstrip, exBind_ok, Bool.false_eq_true, if_false, if_true, reduceIte]
  · intro hstrip
    have hnot : ¬(pyStrip tt = "rbf".data) := by
      rcases hstrip with hs | hs <;> rw [hs] <;> decide
    rw [parseAux_cons]
    simp only [hc1, hc2, hc3, hc4, hc5, hc6, hc7, hc8, hc9, hc10, htok, hls,
      exBind_ok, Bool.false_eq_true, if_false, if_true, reduceIte,
      if_neg hnot, if_pos hstrip]

/-- Witness for C4 (amended): a concrete rbf section and a concrete
cyclic section, each with two decoy header lines carrying parseable
numbers and a `theta 5.0` data line. -/
theorem kernel_sections_skip_two_witness :
    (parseAux 2 {} ("[kernel.k1]".data :: "type rbf".data :: "a 9.0".data ::
        "b 8.0".data :: "theta 5.0".data :: []) =
      parseAux 1 { kernels := [(['k', '1'], .rbf [5])] } []) ∧
    (parseAux 2 {} ("[kernel.k2]".data :: "type rbf-cylic".data :: "a 9.0".data ::
        "b 8.0".data :: "theta 5.0".data :: []) =
      parseAux 1 { kernels := [(['k', '2'], .cyclic [5])] } []) :=
  ⟨(kernel_sections_skip_two 1 {} "[kernel.k1]".data "type rbf".data
      "a 9.0".data "b 8.0".data "theta 5.0".data [] "rbf".data [5]
      (by decide) (by decide) (by decide) (by decide) (by decide) (by decide)
      (by decide) (by decide) (by decide) (by decide) rfl rfl).1 (by decide),
    (kernel_sections_skip_two 1 {} "[kernel.k2]".data "type rbf-cylic".data
      "a 9.0".data "b 8.0".data "theta 5.0".data [] "rbf-cylic".data [5]
      (by decide) (by decide) (by decide) (by decide) (by decide) (by decide)
      (by decide) (by decide) (by decide) (by decide) rfl rfl).2
      (Or.inr (by decide))⟩

/-- C4 counterexample: on a file whose rbf section is followed by the
lines `a 9.0`, `b 8.0`, `theta 5.0`, the parsed lengthscale is `[5]`
(from the third line after the type line), not `[9]` as reading the
data from the line after a single skipped header would give; and the
cyclic variant on an identically shaped section also yields `[5]`,
showing it consumes the same number of lines as rbf rather than two
more. -/
theorem kernel_skip_counterexample :
    (parseModel ["[kernel.k1]", "type rbf", "a 9.0", "b 8.0",
      "theta 5.0"]).toOption.map PState.kernels =
      some [(['k', '1'], .rbf [5])] ∧
    (parseModel ["[kernel.k2]", "type rbf-cyclic", "a 9.0", "b 8.0",
      "theta 5.0"]).toOption.map PState.kernels =
      some [(['k', '2'], .cyclic [5])] ∧
    KernelSpec.rbf [5] ≠ KernelSpec.rbf [9] := by
  refine ⟨by decide, by decide, by decide⟩

/-! ### Claim C9 — nugget default, parsing, and use in R -/

theorem parseAux_nugget_preserved :
    ∀ (fuel : ℕ) (st : PState) (lines : List Line) (st' : PState),
      (∀ l ∈ lines, containsS "nugget" l = false) →
      parseAux fuel st lines = .ok st' → st'.nugget = st.nugget := by
  intro fuel
  induction fuel with
  | zero =>
    intro st lines st' _ h
    rw [parseAux_zero] at h
    simp only [Except.ok.injEq] at h
    rw [← h]
  | succ fuel ih =>
    intro st lines st' hno h
    cases lines with
    | nil =>
      rw [parseAux_nil] at h
      simp only [Except.ok.injEq] at h
      rw [← h]
    | cons line rest =>
      have hnug : containsS "nugget" line = false := hno line (by simp)
      have hrest : ∀ l ∈ rest, containsS "nugget" l = false :=
        fun l hl => hno l (by simp [hl])
      rw [parseAux_cons] at h
      by_cases hb1 : startsS "#" line = true
      · rw [if_pos hb1] at h
        exact ih st rest st' hrest h
      rw [if_neg hb1] at h
      by_cases hb2 : containsS "name" line = true
      · rw [if_pos hb2] at h
        cases htok : tokAt (splitWs line) 1 with
        | error e =>
          rw [htok] at h
          exact Except.noConfusion h
        | ok t =>
          rw [htok] at h
          exact ih { st with system := some t } rest st' hrest h
      rw [if_neg hb2] at h
      by_cases hb3 : startsS "atom" line = true
      · rw [if_pos hb3] at h
        cases htok : tokAt (splitWs line) 1 with
        | error e =>
          rw [htok] at h
          exact Except.noConfusion h
        | ok t =>
          rw [htok] at h
          exact ih { st with atom := some t } rest st' hrest h
      rw [if_neg hb3] at h
      by_cases hb4 : containsS "property" line = true
      · rw [if_pos hb4] at h
        cases htok : tokAt (splitWs line) 1 with
        | error e =>
          rw [htok] at h
          exact Except.noConfusion h
        | ok t =>
          rw [htok] at h
          exact ih { st with ptype := some t } rest st' hrest h
      rw [if_neg hb4] at h
      by_cases hb5 : containsS "nugget" line = true
      · exact absurd hb5 (by simp [hnug])
      rw [if_neg hb5] at h
      by_cases hb6 : containsS "number_of_features" line = true
      · rw [if_pos hb6] at h
        cases htok : tokAt (splitWs line) 1 with
        | error e =>
          rw [htok] at h
          exact Except.noConfusion h
        | ok t =>
          rw [htok] at h
          simp only [exBind_ok] at h
          cases hint : intE t with
          | error e =>
            rw [hint] at h
            exact Except.noConfusion h
          | ok v =>
            rw [hint] at h
            exact ih { st with nfeats := some v } rest st' hrest h
      rw [if_neg hb6] at h
      by_cases hb7 : containsS "number_of_training_points" line = true
      · rw [if_pos hb7] at h
        cases htok : tokAt (splitWs line) 1 with
        | error e =>
          rw [htok] at h
          exact Except.noConfusion h
        | ok t =>
          rw [htok] at h
          simp only [exBind_ok] at h
          cases hint : intE t with
          | error e =>
            rw [hint] at h
            exact Except.noConfusion h
          | ok v =>
            rw [hint] at h
            exact ih { st with ntrain := some v } rest st' hrest h
      rw [if_neg hb7] at h
      by_cases hb8 : containsS "[mean]" line = true
      · rw [if_pos hb8] at h
        match rest, hrest, h with
        | [], _, h => exact Except.noConfusion h
        | [_], _, h => exact Except.noConfusion h
        | a :: l2 :: rest3, hrest, h =>
          simp only [] at h
          cases htok : tokAt (splitWs l2) 1 with
          | error e =>
            rw [htok] at h
            exact Except.noConfusion h
          | ok t =>
            rw [htok] at h
            simp only [exBind_ok] at h
            cases hfl : floatE t with
            | error e =>
              rw [hfl] at h
              exact Except.noConfusion h
            | ok v =>
              rw [hfl] at h
              exact ih { st with mean := some v } rest3 st'
                (fun l hl => hrest l (by simp [hl])) h
      rw [if_neg hb8] at h
      by_cases hb9 : containsS "composition" line = true
      · rw [if_pos hb9] at h
        cases htok : tokLast (splitWs line) with
        | error e =>
          rw [htok] at h
          exact Except.noConfusion h
        | ok t =>
          rw [htok] at h
          exact ih { st with composition := t } rest st' hrest h
      rw [if_neg hb9] at h
      by_cases hb10 : containsS "[kernel." line = true
      · rw [if_pos hb10] at h
        match rest, hrest, h with
        | [], _, h => exact Except.noConfusion h
        | l2 :: rest2, hrest, h =>
          simp only [] at h
          cases htok : tokLast (splitWs l2) with
          | error e =>
            rw [htok] at h
            exact Except.noConfusion h
          | ok tt =>
            rw [htok] at h
            simp only [exBind_ok] at h
            by_cases hty1 : pyStrip tt = "rbf".data
            · rw [if_pos hty1] at h
              match rest2, hrest, h with
              | [], _, h => exact Except.noConfusion h
              | [_], _, h => exact Except.noConfusion h
              | [_, _], _, h => exact Except.noConfusion h
              | a :: b :: l5 :: rest5, hrest, h =>
                simp only [] at h
                cases hls : ((splitWs l5).drop 1).mapM floatE with
                | error e =>
                  rw [hls] at h
                  exact Except.noConfusion h
                | ok ls =>
                  rw [hls] at h
                  exact ih
                    { st with
                      kernels := upsert (kernelName line) (.rbf ls) st.kernels }
                    rest5 st' (fun l hl => hrest l (by simp [hl])) h
            rw [if_neg hty1] at h
            by_cases hty2 : pyStrip tt = "rbf-cyclic".data ∨
                pyStrip tt = "rbf-cylic".data
            · rw [if_pos hty2] at h
              match rest2, hrest, h with
              | [], _, h => exact Except.noConfusion h
              | [_], _, h => exact Except.noConfusion h
              | [_, _], _, h => exact Except.noConfusion h
              | a :: b :: l5 :: rest5, hrest, h =>
                simp only [] at h
                cases hls : ((splitWs l5).drop 1).mapM floatE with
                | error e =>
                  rw [hls] at h
                  exact Except.noConfusion h
                | ok ls =>
                  rw [hls] at h
                  exact ih
                    { st with
                      kernels := upsert (kernelName line) (.cyclic ls) st.kernels }
                    rest5 st' (fun l hl => hrest l (by simp [hl])) h
            rw [if_neg hty2] at h
            exact ih st rest2 st' (fun l hl => hrest l (by simp [hl])) h
      rw [if_neg hb10] at h
      by_cases hb11 : containsS "[training_data.x]" line = true
      · rw [if_pos hb11] at h
        cases hxr : readXRows rest with
        | error e =>
          rw [hxr] at h
          exact Except.noConfusion h
        | ok pr =>
          rw [hxr] at h
          exact ih { st with x := some pr.1 } pr.2 st'
            (fun l hl => hrest l (readXRows_subset rest pr.1 pr.2
              (by rw [hxr]) l hl)) h
      rw [if_neg hb11] at h
      by_cases hb12 : containsS "[training_data.y]" line = true
      · rw [if_pos hb12] at h
        cases hyr : readYRows rest with
        | error e =>
          rw [hyr] at h
          exact Except.noConfusion h
        | ok pr =>
          rw [hyr] at h
          exact ih { st with y := some pr.1 } pr.2 st'
            (fun l hl => hrest l (readYRows_subset rest pr.1 pr.2
              (by rw [hyr]) l hl)) h
      rw [if_neg hb12] at h
      exact ih st rest st' hrest h

/-- The nugget is added to each diagonal entry of `R`. -/
theorem R_diag (M : Model) (i : ℕ) (hx : M.x.length = M.ntrain)
    (hi : i < M.ntrain) :
    (M.R.getD i []).getD i 0 =
      M.cov (M.x.getD i []) (M.x.getD i []) + M.nugget := by
  have hix : i < M.x.length := by omega
  have hlen1 : i < (List.zipWith (List.zipWith (· + ·)) (M.kR M.x)
      (smulMat M.nugget (eyeQ M.ntrain))).length := by
    simp [Model.kR, smulMat, eyeQ, hx]
    omega
  rw [Model.R]
  rw [show addMat (M.kR M.x) (smulMat M.nugget (eyeQ M.ntrain)) =
    List.zipWith (List.zipWith (· + ·)) (M.kR M.x)
      (smulMat M.nugget (eyeQ M.ntrain)) from rfl]
  rw [List.getD_eq_getElem _ _ hlen1, List.getElem_zipWith]
  have hki : i < (M.kR M.x).length := by simp [Model.kR]; omega
  have hei : i < (smulMat M.nugget (eyeQ M.ntrain)).length := by
    simp [smulMat, eyeQ]; omega
  have hrow1 : (M.kR M.x)[i] = M.x.map (fun xj => M.cov (M.x.getD i []) xj) := by
    simp only [Model.kR, List.getElem_map]
    rw [List.getD_eq_getElem _ _ hix]
  have hrow2 : (smulMat M.nugget (eyeQ M.ntrain))[i] =
      (List.range M.ntrain).map
        (fun j => M.nugget * (if i = j then 1 else 0)) := by
    simp only [smulMat, eyeQ, List.getElem_map, List.getElem_range]
    show List.map (fun a => M.nugget * a)
        (List.map (fun j => if i = j then 1 else 0) (List.range M.ntrain)) =
      List.map (fun j => M.nugget * if i = j then 1 else 0) (List.range M.ntrain)
    rw [List.map_map]
    rfl
  rw [hrow1, hrow2]
  have hz : i < (List.zipWith (· + ·)
      (M.x.map (fun xj => M.cov (M.x.getD i []) xj))
      ((List.range M.ntrain).map
        (fun j => M.nugget * (if i = j then 1 else 0)))).length := by
    simp [hx]
    omega
  rw [List.getD_eq_getElem _ _ hz, List.getElem_zipWith, List.getElem_map,
    List.getElem_map, List.getElem_range]
  rw [← List.getD_eq_getElem M.x [] hix]
  simp

/-- C9: a persisted file with no line containing `nugget` yields a model
whose nugget is the `1e-10` set in `__init__`; a `nugget <float>` line
(matching no earlier branch) sets the nugget to its last
whitespace-separated token parsed as a float; and that attribute is the
value added to each diagonal entry of the train-train covariance `R`. -/
theorem nugget_default_parse_and_diagonal :
    (∀ (lines : List String) (st' : PState),
      (∀ l ∈ lines, containsS "nugget" l.data = false) →
      parseModel lines = .ok st' → st'.nugget = 1 / 10 ^ 10) ∧
    (∀ (fuel : ℕ) (st : PState) (nline : Line) (post : List Line)
      (st' : PState) (tt : Line) (v : ℚ),
      startsS "#" nline = false → containsS "name" nline = false →
      startsS "atom" nline = false → containsS "property" nline = false →
      containsS "nugget" nline = true →
      tokLast (splitWs nline) = .ok tt → parseFloat tt = some v →
      (∀ l ∈ post, containsS "nugget" l = false) →
      parseAux (fuel + 1) st (nline :: post) = .ok st' → st'.nugget = v) ∧
    (∀ (M : Model) (i : ℕ), M.x.length = M.ntrain → i < M.ntrain →
      (M.R.getD i []).getD i 0 =
        M.cov (M.x.getD i []) (M.x.getD i []) + M.nugget) := by
  refine ⟨?_, ?_, ?_⟩
  · intro lines st' hno h
    have hpres := parseAux_nugget_preserved (lines.length + 1) {}
      (lines.map String.data) st'
      (by
        intro l hl
        obtain ⟨l0, hl0, hl0e⟩ := List.mem_map.mp hl
        rw [← hl0e]
        exact hno l0 hl0)
      h
    rw [hpres]
  · intro fuel st nline post st' tt v hc1 hc2 hc3 hc4 hc5 htok hv hno h
    have hn1 : ¬(startsS "#" nline = true) := by simp [hc1]
    have hn2 : ¬(containsS "name" nline = true) := by simp [hc2]
    have hn3 : ¬(startsS "atom" nline = true) := by simp [hc3]
    have hn4 : ¬(containsS "property" nline = true) := by simp [hc4]
    rw [parseAux_cons, if_neg hn1, if_neg hn2, if_neg hn3, if_neg hn4,
      if_pos hc5, htok] at h
    simp only [exBind_ok] at h
    rw [show floatE tt = Except.ok v by simp [floatE, hv]] at h
    simp only [exBind_ok] at h
    exact parseAux_nugget_preserved fuel { st with nugget := v } post st' hno h
  · intro M i hx hi
    exact R_diag M i hx hi

/-- Witness for C9: a nugget-free file keeps `1e-10`; a `nugget 1e-6`
line sets `1e-6`; the diagonal of `R` at `mdlConst` carries the
nugget. -/
theorem nugget_default_parse_and_diagonal_witness :
    (parseModel ["name WATER"] = .ok { system := some "WATER".data } ∧
      ({ system := some "WATER".data } : PState).nugget = 1 / 10 ^ 10) ∧
    (parseAux 1 {} ["nugget 1e-6".data] = .ok { nugget := 1 / 10 ^ 6 } ∧
      ({ nugget := 1 / 10 ^ 6 } : PState).nugget = 1 / 10 ^ 6) ∧
    ((mdlConst.R.getD 0 []).getD 0 0 =
      mdlConst.cov (mdlConst.x.getD 0 []) (mdlConst.x.getD 0 []) +
        mdlConst.nugget) :=
  ⟨⟨by rfl,
    nugget_default_parse_and_diagonal.1 ["name WATER"]
      { system := some "WATER".data } (by decide) (by rfl)⟩,
  ⟨by rfl,
    nugget_default_parse_and_diagonal.2.1 0 {} "nugget 1e-6".data []
      { nugget := 1 / 10 ^ 6 } "1e-6".data (1 / 10 ^ 6)
      (by decide) (by decide) (by decide) (by decide) (by decide) rfl
      (by decide) (by simp) (by rfl)⟩,
    nugget_default_parse_and_diagonal.2.2 mdlConst 0 rfl (by decide)⟩

/-! ### Claim C5 — weights (corrected) -/

/-- C5 (amended): for every constructed model whose mean is the zero or
constant variant — the variants whose `value` is an `ntrain × 1`
column — `weights` equals `invR · (y − Mean.value(X))` and is a column
vector of shape `ntrain × 1`.  (For the quadratic variant, whose `value`
returns a flattened 1-D array, broadcasting instead makes `weights`
`ntrain × ntrain`; see the counterexample.) -/
theorem weights_column_for_col_means (M : Model) (hWF : M.WF)
    (hmean : M.mean = .zero ∨ ∃ c, M.mean = .constant c) :
    ∃ W, M.weights = some (.two W) ∧ W.length = M.ntrain ∧
      (∀ r ∈ W, r.length = 1) ∧
      npFlatten (.two W) =
        matVec M.invR (List.zipWith (· - ·) M.y (npFlatten (M.mean.value M.x))) := by
  obtain ⟨k, hk⟩ := mean_col_exists hmean
  refine ⟨_, weights_col M hWF k hk, ?_, ?_, ?_⟩
  · rw [List.length_map, matVec, List.length_map, length_invR M hWF.x_rows]
  · intro r hr
    obtain ⟨w, _, hw⟩ := List.mem_map.mp hr
    rw [← hw]
    rfl
  · rw [hk M.x, npFlatten_col, npFlatten_const_col]

/-- Witness for C5 (amended) at the constant-mean model `mdlConst`. -/
theorem weights_column_for_col_means_witness :
    mdlConst.WF ∧
    (∃ W, mdlConst.weights = some (.two W) ∧ W.length = mdlConst.ntrain ∧
      (∀ r ∈ W, r.length = 1) ∧
      npFlatten (.two W) =
        matVec mdlConst.invR (List.zipWith (· - ·) mdlConst.y
          (npFlatten (mdlConst.mean.value mdlConst.x)))) :=
  ⟨⟨rfl, rfl, by decide, by decide⟩,
    weights_column_for_col_means mdlConst ⟨rfl, rfl, by decide, by decide⟩
      (Or.inr ⟨1, rfl⟩)⟩

/-- C5 counterexample: on the quadratic-mean model `mdlQuad`
(`ntrain = 2`), `QuadraticMean.value` returns the flattened 1-D array
`[0, 1]`, `y[:, np.newaxis] - value(X)` broadcasts to `2 × 2`, and
`weights` is the `2 × 2` matrix `[[0, -1], [0, -1]]` — not a `2 × 1`
column vector as the claim states. -/
theorem weights_quadratic_counterexample :
    mdlQuad.weights = some (.two [[0, -1], [0, -1]]) ∧
    mdlQuad.ntrain = 2 ∧
    (NpArr.two [[0, -1], [0, -1]]).bshape = (2, 2) := by
  refine ⟨by decide, rfl, by decide⟩

/-! ### Claim C2 — predict (corrected) -/

/-- C2 (amended): `predict` accepts a single feature vector
(auto-promoted to a 1-row matrix) or an `m`-row matrix; for every
constructed model whose mean is the zero or constant variant it returns
an `m`-length vector equal to `Mean.value(Xstar) + r(X, Xstar)ᵀ ·
weights`, one scalar per test row.  (For the quadratic mean the
broadcast shapes degenerate; see the counterexample.) -/
theorem predict_promote_and_rowwise (M : Model) (v : List ℚ)
    (rows : List (List ℚ)) (hWF : M.WF)
    (hmean : M.mean = .zero ∨ ∃ c, M.mean = .constant c) :
    M.predict (.one v) = M.predict (.two [v]) ∧
    ∃ res W, M.weights = some W ∧ M.predict (.two rows) = some res ∧
      res.length = rows.length ∧
      ∀ i, i < rows.length → res.getD i 0 =
        (npFlatten (M.mean.value rows)).getD i 0 +
          dotq ((M.kr M.x rows).map (fun krow => krow.getD i 0)) (npFlatten W) := by
  obtain ⟨k, hk⟩ := mean_col_exists hmean
  constructor
  · rfl
  · refine ⟨_, _, weights_col M hWF k hk, predict_eval M rows k hWF hk, ?_, ?_⟩
    · rw [List.length_zipWith, List.length_map, matVec, List.length_map,
        transposeQ_length, kr_headD_length M rows hWF.x_ne_nil, min_self]
    · intro i hi
      have hlenP : (matVec (transposeQ (M.kr M.x rows))
          (matVec M.invR (List.zipWith (· - ·) M.y (M.x.map fun _ => k)))).length =
          rows.length := by
        rw [matVec, List.length_map, transposeQ_length,
          kr_headD_length M rows hWF.x_ne_nil]
      have hiz : i < (List.zipWith (· + ·) (rows.map fun _ => k)
          (matVec (transposeQ (M.kr M.x rows))
            (matVec M.invR (List.zipWith (· - ·) M.y
              (M.x.map fun _ => k))))).length := by
        rw [List.length_zipWith, List.length_map, hlenP, min_self]
        exact hi
      rw [List.getD_eq_getElem _ _ hiz, List.getElem_zipWith]
      congr 1
      · rw [List.getElem_map]
        rw [hk rows]
        rw [npFlatten_const_col]
        rw [List.getD_eq_getElem _ _ (by rw [List.length_map]; exact hi),
          List.getElem_map]
      · have hi3 : i < (transposeQ (M.kr M.x rows)).length := by
          rw [transposeQ_length, kr_headD_length M rows hWF.x_ne_nil]
          exact hi
        rw [npFlatten_col]
        simp only [matVec, List.getElem_map]
        rw [← List.getD_eq_getElem (transposeQ (M.kr M.x rows)) [] hi3]
        rw [transposeQ_getD _ _ (by
          rw [kr_headD_length M rows hWF.x_ne_nil]; exact hi)]

/-- Witness for C2 (amended) at `mdlConst`. -/
theorem predict_promote_and_rowwise_witness :
    mdlConst.WF ∧
    (mdlConst.predict (.one [0]) = mdlConst.predict (.two [[0]]) ∧
    ∃ res W, mdlConst.weights = some W ∧
      mdlConst.predict (.two [[0], [7]]) = some res ∧
      res.length = 2 ∧
      ∀ i, i < 2 → res.getD i 0 =
        (npFlatten (mdlConst.mean.value [[0], [7]])).getD i 0 +
          dotq ((mdlConst.kr mdlConst.x [[0], [7]]).map
            (fun krow => krow.getD i 0)) (npFlatten W)) :=
  ⟨⟨rfl, rfl, by decide, by decide⟩,
    predict_promote_and_rowwise mdlConst [0] [[0], [7]]
      ⟨rfl, rfl, by decide, by decide⟩ (Or.inr ⟨1, rfl⟩)⟩

/-- C2 counterexample: on the quadratic-mean model `mdlQuad` (with
`ntrain = 2`), `predict` on a single test row returns **two** scalars
`[25, 25]` instead of an `m = 1`-length vector: the 1-D mean value
broadcasts against the `1 × 2` product `r(X, Xstar)ᵀ · weights`. -/
theorem predict_quadratic_counterexample :
    mdlQuad.predict (.two [[5]]) = some [25, 25] ∧
    ([(25 : ℚ), 25]).length = 2 ∧ ([[(5 : ℚ)]] : List (List ℚ)).length = 1 := by
  refine ⟨by decide, rfl, rfl⟩

/-! ### Claim C3 — no ShapeError (corrected) -/

/-- C3 (amended): `Model.predict` performs no column-count validation and
raises no `ShapeError` (no such check or exception class exists in the
code): for a model with zero or constant mean, `predict` returns an
`m`-length result for an input of **any** width — the rows are handed
to the kernel unchecked — and in particular inputs with
`cols(Xstar) = nfeats` raise nothing either. -/
theorem predict_no_shape_validation (M : Model) (rows : List (List ℚ))
    (hWF : M.WF)
    (hmean : M.mean = .zero ∨ ∃ c, M.mean = .constant c) :
    ∃ res, M.predict (.two rows) = some res ∧ res.length = rows.length := by
  obtain ⟨k, hk⟩ := mean_col_exists hmean
  refine ⟨_, predict_eval M rows k hWF hk, ?_⟩
  rw [List.length_zipWith, List.length_map, matVec, List.length_map,
    transposeQ_length, kr_headD_length M rows hWF.x_ne_nil, min_self]

/-- Witness for C3 (amended): `mdlTwoFeat` has `nfeats = 2`, yet
`predict` on a 1-column input returns a value. -/
theorem predict_no_shape_validation_witness :
    mdlTwoFeat.WF ∧
    (∃ res, mdlTwoFeat.predict (.two [[9]]) = some res ∧ res.length = 1) :=
  ⟨⟨rfl, rfl, by decide, by decide⟩,
    predict_no_shape_validation mdlTwoFeat [[9]]
      ⟨rfl, rfl, by decide, by decide⟩ (Or.inr ⟨0, rfl⟩)⟩

/-- C3 counterexample: `mdlTwoFeat.nfeats = 2` but `predict` on the
1-column input `[[9]]` returns `some [1]` — it does not fail, so no
`ShapeError` is raised to the caller. -/
theorem predict_wrong_width_counterexample :
    mdlTwoFeat.nfeats = 2 ∧ ([(9 : ℚ)]).length = 1 ∧
    mdlTwoFeat.predict (.two [[9]]) = some [1] := by
  refine ⟨rfl, rfl, by decide⟩

/-! ### Claims C7 and C8 — the random selector -/

section

open List

theorem sampleAux_zero (rng : ℕ → ℕ) (pool : List ℕ) (i : ℕ) :
    sampleAux rng pool 0 i = [] := rfl

theorem sampleAux_succ (rng : ℕ → ℕ) (pool : List ℕ) (k i : ℕ) :
    sampleAux rng pool (k + 1) i =
      if pool.length = 0 then []
      else
        pool.getD (rng i % pool.length) 0 ::
          sampleAux rng
            ((pool.set (rng i % pool.length)
              (pool.getD (pool.length - 1) 0)).take (pool.length - 1))
            k (i + 1) := rfl

theorem set_getD_self (l : List ℕ) (j : ℕ) (hj : j < l.length) :
    l.set j (l.getD j 0) = l := by
  apply List.ext_getElem
  · simp
  · intro i h1 h2
    rw [List.getElem_set]
    split
    · rename_i he
      subst he
      rw [List.getD_eq_getElem _ _ hj]
    · rfl

/-- One selection step is a permutation: the chosen element together
with the updated active pool is a rearrangement of the previous pool. -/
theorem swap_take_perm (pool : List ℕ) (j : ℕ) (hj : j < pool.length) :
    pool.getD j 0 ::
      ((pool.set j (pool.getD (pool.length - 1) 0)).take (pool.length - 1)) ~
      pool := by
  by_cases hjl : j = pool.length - 1
  · subst hjl
    rw [set_getD_self pool _ hj]
    have hlast : pool.length - 1 < pool.length := by omega
    have hfull : pool.take (pool.length - 1) ++
        [pool[pool.length - 1]] = pool := by
      rw [List.take_concat_get']
      have he : pool.length - 1 + 1 = pool.length := by omega
      rw [he, List.take_length]
    calc pool.getD (pool.length - 1) 0 :: pool.take (pool.length - 1)
        ~ pool.take (pool.length - 1) ++ [pool.getD (pool.length - 1) 0] :=
          (List.perm_append_singleton _ _).symm
      _ = pool := by
          rw [List.getD_eq_getElem _ _ (by omega)]
          exact hfull
  · have hjlt : j < pool.length - 1 := by omega
    rw [List.set_take]
    have htlen : (pool.take (pool.length - 1)).length = pool.length - 1 := by
      rw [List.length_take]
      omega
    set t := pool.take (pool.length - 1) with ht
    set b := pool.getD (pool.length - 1) 0 with hb
    have hjt : j < t.length := by omega
    have hset : t.set j b = t.take j ++ b :: t.drop (j + 1) :=
      List.set_eq_take_cons_drop b hjt
    have htsplit : t = t.take j ++ t[j] :: t.drop (j + 1) := by
      conv_lhs => rw [← List.take_append_drop j t]
      rw [List.drop_eq_getElem_cons hjt]
    have hgetD : pool.getD j 0 = t[j] := by
      rw [List.getD_eq_getElem _ _ hj]
      exact (List.getElem_take pool).symm
    have hpool : pool = t ++ [b] := by
      rw [ht, hb, List.getD_eq_getElem _ _ (by omega), List.take_concat_get']
      have he : pool.length - 1 + 1 = pool.length := by omega
      rw [he, List.take_length]
    rw [hset, hgetD, hpool]
    calc t[j] :: (t.take j ++ b :: t.drop (j + 1))
        ~ t.take j ++ t[j] :: (b :: t.drop (j + 1)) := List.perm_middle.symm
      _ ~ t.take j ++ t[j] :: (t.drop (j + 1) ++ [b]) := by
          apply List.Perm.append_left
          apply List.Perm.cons
          exact (List.perm_append_singleton b _).symm
      _ = (t.take j ++ t[j] :: t.drop (j + 1)) ++ [b] := by
          rw [List.append_assoc, List.cons_append]
      _ = t ++ [b] := by rw [← htsplit]

theorem sampleAux_length (rng : ℕ → ℕ) :
    ∀ (k : ℕ) (pool : List ℕ) (i : ℕ), k ≤ pool.length →
      (sampleAux rng pool k i).length = k := by
  intro k
  induction k with
  | zero =>
    intro pool i _
    rfl
  | succ k ih =>
    intro pool i hk
    rw [sampleAux_succ, if_neg (by omega)]
    rw [List.length_cons, ih _ (i + 1) (by
      rw [List.length_take, List.length_set]
      omega)]

/-- The selected elements together with some leftover are a permutation
of the pool: selection is without replacement. -/
theorem sampleAux_perm (rng : ℕ → ℕ) :
    ∀ (k : ℕ) (pool : List ℕ) (i : ℕ), k ≤ pool.length →
      ∃ rest, (sampleAux rng pool k i) ++ rest ~ pool ∧
        rest.length = pool.length - k := by
  intro k
  induction k with
  | zero =>
    intro pool i _
    exact ⟨pool, by rw [sampleAux_zero, List.nil_append], by omega⟩
  | succ k ih =>
    intro pool i hk
    have hm : pool.length ≠ 0 := by omega
    have hj : rng i % pool.length < pool.length := Nat.mod_lt _ (by omega)
    obtain ⟨rest, hperm, hlen⟩ := ih
      ((pool.set (rng i % pool.length)
        (pool.getD (pool.length - 1) 0)).take (pool.length - 1)) (i + 1)
      (by rw [List.length_take, List.length_set]; omega)
    refine ⟨rest, ?_, by
      rw [hlen, List.length_take, List.length_set]
      omega⟩
    rw [sampleAux_succ, if_neg hm, List.cons_append]
    calc pool.getD (rng i % pool.length) 0 ::
          (sampleAux rng _ k (i + 1) ++ rest)
        ~ pool.getD (rng i % pool.length) 0 ::
            ((pool.set (rng i % pool.length)
              (pool.getD (pool.length - 1) 0)).take (pool.length - 1)) :=
          hperm.cons _
      _ ~ pool := swap_take_perm pool _ hj

/-- C7 (amended): requesting `n = 0` points, or any `n ≥ 0` from an empty
pool, returns the **empty list** — no error of any kind is raised; a
negative `n` raises `random.sample`'s `ValueError`.  No `SelectionError`
exists in the code. -/
theorem get_points_degenerate :
    (∀ (N : ℕ) (rng : ℕ → ℕ), (RandomPoints.mk 0).get_points N rng = .ok []) ∧
    (∀ (np : ℤ) (rng : ℕ → ℕ), 0 ≤ np →
      (RandomPoints.mk np).get_points 0 rng = .ok []) ∧
    (∀ (np : ℤ) (N : ℕ) (rng : ℕ → ℕ), np < 0 →
      (RandomPoints.mk np).get_points N rng =
        .error "Sample larger than population or is negative") := by
  refine ⟨?_, ?_, ?_⟩
  · intro N rng
    show pySample rng N (min 0 (N : ℤ)) = _
    unfold pySample
    have hmin : min (0 : ℤ) (N : ℤ) = 0 := by omega
    rw [hmin, if_pos (by omega : (0 : ℤ) ≤ 0 ∧ (0 : ℤ) ≤ (N : ℤ))]
    rfl
  · intro np rng h
    show pySample rng 0 (min np ((0 : ℕ) : ℤ)) = _
    unfold pySample
    have hmin : min np ((0 : ℕ) : ℤ) = 0 := by omega
    rw [hmin, if_pos (by omega : (0 : ℤ) ≤ 0 ∧ (0 : ℤ) ≤ ((0 : ℕ) : ℤ))]
    rfl
  · intro np N rng h
    show pySample rng N (min np (N : ℤ)) = _
    unfold pySample
    rw [if_neg (by omega)]

/-- Witness for C7 (amended) at concrete pools and request sizes. -/
theorem get_points_degenerate_witness :
    (RandomPoints.mk 0).get_points 5 (fun i => i) = .ok [] ∧
    (RandomPoints.mk 4).get_points 0 (fun i => i) = .ok [] ∧
    (RandomPoints.mk (-2)).get_points 3 (fun i => i) =
      .error "Sample larger than population or is negative" :=
  ⟨get_points_degenerate.1 5 (fun i => i),
    get_points_degenerate.2.1 4 (fun i => i) (by decide),
    get_points_degenerate.2.2 (-2) 3 (fun i => i) (by decide)⟩

/-- C7 counterexample: `get_points` with `n = 0` on a 2-point pool and
with `n = 3` on an empty pool both return `ok []` — an empty index list,
not a `SelectionError` (the claim says these calls fail). -/
theorem get_points_no_selection_error :
    (RandomPoints.mk 0).get_points 2 (fun _ => 0) = .ok [] ∧
    (RandomPoints.mk 3).get_points 0 (fun _ => 0) = .ok [] := ⟨rfl, rfl⟩

/-- C8: for every pool of `N` points, every requested `n ≥ 1` and every
random stream, `get_points` returns exactly `min n N` distinct indices
drawn without replacement from `0 .. N-1`; when `n ≥ N` the result is a
permutation of all pool indices (each exactly once). -/
theorem random_selector_contract (np : ℤ) (N : ℕ) (rng : ℕ → ℕ)
    (h1 : 1 ≤ np) :
    ∃ l, (RandomPoints.mk np).get_points N rng = .ok l ∧
      l.length = min np.toNat N ∧ l.Nodup ∧ (∀ x ∈ l, x < N) ∧
      ((N : ℤ) ≤ np → l ~ List.range N) := by
  have hcond : 0 ≤ min np (N : ℤ) ∧ min np (N : ℤ) ≤ (N : ℤ) := by omega
  have hkN : (min np (N : ℤ)).toNat ≤ N := by omega
  have hkval : (min np (N : ℤ)).toNat = min np.toNat N := by omega
  refine ⟨sampleAux rng (List.range N) (min np (N : ℤ)).toNat 0,
    ?_, ?_, ?_, ?_, ?_⟩
  · show pySample rng N (min np (N : ℤ)) = _
    unfold pySample
    rw [if_pos hcond]
  · rw [sampleAux_length rng ((min np (N : ℤ)).toNat) (List.range N) 0
      (by rw [List.length_range]; exact hkN), hkval]
  · obtain ⟨rest, hperm, _⟩ := sampleAux_perm rng ((min np (N : ℤ)).toNat)
      (List.range N) 0 (by rw [List.length_range]; exact hkN)
    exact ((hperm.nodup_iff).mpr (List.nodup_range N)).of_append_left
  · obtain ⟨rest, hperm, _⟩ := sampleAux_perm rng ((min np (N : ℤ)).toNat)
      (List.range N) 0 (by rw [List.length_range]; exact hkN)
    intro x hx
    exact List.mem_range.mp (hperm.subset (List.mem_append_left rest hx))
  · intro hN
    obtain ⟨rest, hperm, hlen⟩ := sampleAux_perm rng ((min np (N : ℤ)).toNat)
      (List.range N) 0 (by rw [List.length_range]; exact hkN)
    rw [List.length_range] at hlen
    have hrest : rest = [] := by
      have hm : (min np (N : ℤ)).toNat = N := by omega
      rw [hm] at hlen
      exact List.length_eq_zero.mp (by omega)
    rw [hrest, List.append_nil] at hperm
    exact hperm

/-- Witness for C8 at a concrete pool, request and random stream. -/
theorem random_selector_contract_witness :
    (1 : ℤ) ≤ 3 ∧
    ∃ l, (RandomPoints.mk 3).get_points 2 (fun _ => 0) = .ok l ∧
      l.length = min (3 : ℤ).toNat 2 ∧ l.Nodup ∧ (∀ x ∈ l, x < 2) ∧
      ((2 : ℤ) ≤ 3 → l ~ List.range 2) :=
  ⟨by decide, random_selector_contract 3 2 (fun _ => 0) (by decide)⟩

end

/-- Witness for C1 at `mdlConst` and two concrete test rows. -/
theorem variance_rowwise_formula_witness :
    mdlConst.WF ∧
    ((mdlConst.variance (.two [[0], [7]])).length = 2 ∧
    ∀ i, i < 2 →
      (mdlConst.variance (.two [[0], [7]])).getD i 0 =
        (fun ri =>
          1 - dotq (vecMat ri mdlConst.invR) ri +
            (1 - dotq (vecMat (onesQ mdlConst.ntrain) mdlConst.invR) ri) ^ 2 /
              dotq (vecMat (onesQ mdlConst.ntrain) mdlConst.invR)
                (onesQ mdlConst.ntrain))
        ((mdlConst.kr mdlConst.x [[0], [7]]).map (fun krow => krow.getD i 0))) :=
  ⟨⟨rfl, rfl, by decide, by decide⟩,
    variance_rowwise_formula mdlConst [[0], [7]]
      ⟨rfl, rfl, by decide, by decide⟩ (by decide)⟩

end Ichor
